import Mathlib

set_option linter.unusedVariables false

/-!
Verification development for the ai-chat-orchestrator core: a shallow
embedding of the tool-call ledger, the MCP connection manager and tool
cache, the fallback tool provider, the schema adapter, the chat manager
and the conversation orchestrator, with theorems about the behaviour the
specification describes.
-/

namespace Spec2Proof

/-- JSON-like values, modelling the TypeScript `any` values (argument maps,
tool payloads, schemas) that flow through the orchestrator. Numbers are
modelled as integers. -/
inductive Json where
  | jnull
  | jbool (b : Bool)
  | jnum (n : Int)
  | jstr (s : String)
  | jarr (elems : List Json)
  | jobj (fields : List (String × Json))
deriving Repr

/-- First binding of key `k` in an association list (JS property read `o[k]`
on an object modelled as an association list, and the `Map.get` reads of the
TypeScript classes). -/
def lookupField {α : Type} : List (String × α) → String → Option α
  | [], _ => none
  | (k, v) :: rest, key => if k == key then some v else lookupField rest key

/-- `Object.keys` of a JS array produces the index keys `"0"`, `"1"`, ...;
this pairs each element with its index key. -/
def indexKeyed (start : Nat) : List Json → List (String × Json)
  | [] => []
  | x :: xs => (toString start, x) :: indexKeyed (start + 1) xs

mutual

/-- Shallow embedding of `ToolCallsCache.deepEqual` (src/unnamed/part_001,
lines 110-130): strict equality on primitives, and for objects (JS arrays
included, since `typeof` is `object` for them) a key-count check followed by
a key-by-key recursive comparison through the first operand's keys. -/
def deepEqual : Json → Json → Bool
  | .jnull, .jnull => true
  | .jbool a, .jbool b => a == b
  | .jnum a, .jnum b => a == b
  | .jstr a, .jstr b => a == b
  | .jarr xs, .jarr ys => xs.length == ys.length && deepEqualList xs ys
  | .jarr xs, .jobj kvs => xs.length == kvs.length && arrObjSub 0 xs kvs
  | .jobj kvs, .jarr ys => kvs.length == ys.length && objSub kvs (indexKeyed 0 ys)
  | .jobj k1, .jobj k2 => k1.length == k2.length && objSub k1 k2
  | _, _ => false
termination_by j _ => sizeOf j

/-- Element-wise `deepEqual` on two JS arrays whose lengths already matched. -/
def deepEqualList : List Json → List Json → Bool
  | [], _ => true
  | _ :: _, [] => false
  | a :: as, b :: bs => deepEqual a b && deepEqualList as bs
termination_by xs _ => sizeOf xs

/-- The key-by-key loop of `deepEqual` when the first operand is a JS array
(keys are index strings) and the second is a plain object. -/
def arrObjSub : Nat → List Json → List (String × Json) → Bool
  | _, [], _ => true
  | i, x :: xs, kvs =>
    (match lookupField kvs (toString i) with
     | some v2 => deepEqual x v2
     | none => false) && arrObjSub (i + 1) xs kvs
termination_by _ xs _ => sizeOf xs

/-- The key-by-key loop of `deepEqual` over the first object's bindings:
each key must be present in the other object with a `deepEqual` value. -/
def objSub : List (String × Json) → List (String × Json) → Bool
  | [], _ => true
  | (k, v) :: rest, other =>
    (match lookupField other k with
     | some v2 => deepEqual v v2
     | none => false) && objSub rest other
termination_by kvs _ => sizeOf kvs

end

mutual

/-- Well-formedness of a JSON value as a JS runtime produces it: object key
lists are duplicate-free (a JS object cannot hold two bindings of one key). -/
def wfJson : Json → Bool
  | .jnull => true
  | .jbool _ => true
  | .jnum _ => true
  | .jstr _ => true
  | .jarr xs => wfList xs
  | .jobj kvs => decide ((kvs.map Prod.fst).Nodup) && wfFields kvs
termination_by j => sizeOf j

def wfList : List Json → Bool
  | [] => true
  | x :: xs => wfJson x && wfList xs
termination_by xs => sizeOf xs

def wfFields : List (String × Json) → Bool
  | [] => true
  | (_, v) :: rest => wfJson v && wfFields rest
termination_by kvs => sizeOf kvs

end

theorem lookupField_eq_some_of_mem {α : Type} {kvs : List (String × α)} {k : String} {v : α}
    (hnd : (kvs.map Prod.fst).Nodup) (hmem : (k, v) ∈ kvs) :
    lookupField kvs k = some v := by
  induction kvs with
  | nil => simp at hmem
  | cons hd tl ih =>
    obtain ⟨k2, v2⟩ := hd
    simp only [List.map_cons, List.nodup_cons] at hnd
    rcases List.mem_cons.mp hmem with heq | hmem2
    · obtain ⟨h1, h2⟩ := Prod.mk.injEq .. ▸ heq
      subst h1; subst h2
      simp [lookupField]
    · have hne : ¬ (k2 = k) := by
        intro h
        subst h
        exact hnd.1 (List.mem_map_of_mem Prod.fst hmem2)
      simp only [lookupField, beq_iff_eq, hne, if_false]
      exact ih hnd.2 hmem2

theorem objSub_eq_true {kvs other : List (String × Json)}
    (h : ∀ k v, (k, v) ∈ kvs →
      ∃ v2, lookupField other k = some v2 ∧ deepEqual v v2 = true) :
    objSub kvs other = true := by
  induction kvs with
  | nil => simp [objSub]
  | cons hd tl ih =>
    obtain ⟨k, v⟩ := hd
    obtain ⟨v2, hl, he⟩ := h k v (List.mem_cons_self _ _)
    rw [objSub, hl]
    simp only [he, Bool.true_and]
    exact ih (fun k v hm => h k v (List.mem_cons_of_mem _ hm))

theorem deepEqualList_eq_true {xs : List Json} (h : ∀ a ∈ xs, deepEqual a a = true) :
    deepEqualList xs xs = true := by
  induction xs with
  | nil => simp [deepEqualList]
  | cons a tl ih =>
    rw [deepEqualList]
    simp only [h a (List.mem_cons_self _ _), Bool.true_and]
    exact ih (fun b hb => h b (List.mem_cons_of_mem _ hb))

theorem wfList_mem {xs : List Json} (h : wfList xs = true) {a : Json} (ha : a ∈ xs) :
    wfJson a = true := by
  induction xs with
  | nil => simp at ha
  | cons b tl ih =>
    rw [wfList, Bool.and_eq_true] at h
    rcases List.mem_cons.mp ha with rfl | ha2
    · exact h.1
    · exact ih h.2 ha2

theorem wfFields_mem {kvs : List (String × Json)} (h : wfFields kvs = true)
    {k : String} {v : Json} (hm : (k, v) ∈ kvs) : wfJson v = true := by
  induction kvs with
  | nil => simp at hm
  | cons hd tl ih =>
    obtain ⟨k2, v2⟩ := hd
    rw [wfFields, Bool.and_eq_true] at h
    rcases List.mem_cons.mp hm with heq | hm2
    · obtain ⟨h1, h2⟩ := Prod.mk.injEq .. ▸ heq
      subst h2
      exact h.1
    · exact ih h.2 hm2

theorem sizeOf_snd_lt_of_mem {kvs : List (String × Json)} {k : String} {v : Json}
    (hm : (k, v) ∈ kvs) : sizeOf v < sizeOf kvs := by
  have h1 : sizeOf (k, v) < sizeOf kvs := List.sizeOf_lt_of_mem hm
  have h2 : sizeOf v < sizeOf (k, v) := by simp
  omega

/-- `deepEqual` is reflexive on well-formed JSON values. -/
theorem deepEqual_self (v : Json) (hwf : wfJson v = true) : deepEqual v v = true := by
  have key : ∀ (n : Nat) (v : Json), sizeOf v ≤ n → wfJson v = true →
      deepEqual v v = true := by
    intro n
    induction n with
    | zero =>
      intro v hv
      exact absurd hv (by cases v <;> simp)
    | succ n ih =>
      intro v hv hwf
      cases v with
      | jnull => simp [deepEqual]
      | jbool b => simp [deepEqual]
      | jnum a => simp [deepEqual]
      | jstr s => simp [deepEqual]
      | jarr xs =>
        rw [deepEqual]
        simp only [beq_self_eq_true, Bool.true_and]
        rw [wfJson] at hwf
        apply deepEqualList_eq_true
        intro a ha
        have hs : sizeOf a < sizeOf xs := List.sizeOf_lt_of_mem ha
        have hb : sizeOf (Json.jarr xs) = 1 + sizeOf xs := by simp
        exact ih a (by omega) (wfList_mem hwf ha)
      | jobj kvs =>
        rw [deepEqual]
        simp only [beq_self_eq_true, Bool.true_and]
        rw [wfJson, Bool.and_eq_true, decide_eq_true_eq] at hwf
        apply objSub_eq_true
        intro k v hm
        refine ⟨v, lookupField_eq_some_of_mem hwf.1 hm, ?_⟩
        have hs : sizeOf v < sizeOf kvs := sizeOf_snd_lt_of_mem hm
        have hb : sizeOf (Json.jobj kvs) = 1 + sizeOf kvs := by simp
        exact ih v (by omega) (wfFields_mem hwf.2 hm)
  exact key (sizeOf v) v le_rfl hwf

/-- `deepEqual` on objects is insensitive to the order of the key bindings:
two well-formed objects whose binding lists are permutations of each other
compare equal. -/
theorem deepEqual_key_order {kvs1 kvs2 : List (String × Json)}
    (hperm : kvs1.Perm kvs2) (hnd : (kvs1.map Prod.fst).Nodup)
    (hwf : wfFields kvs1 = true) :
    deepEqual (.jobj kvs1) (.jobj kvs2) = true := by
  rw [deepEqual]
  have hlen : kvs1.length = kvs2.length := hperm.length_eq
  have hnd2 : (kvs2.map Prod.fst).Nodup := ((hperm.map Prod.fst).nodup_iff).mp hnd
  simp only [hlen, beq_self_eq_true, Bool.true_and]
  apply objSub_eq_true
  intro k v hm
  refine ⟨v, lookupField_eq_some_of_mem hnd2 (hperm.mem_iff.mp hm), ?_⟩
  exact deepEqual_self v (wfFields_mem hwf hm)

/-! ### Tool-Call Ledger (`ToolCallsCache`, src/unnamed/part_001) -/

/-- A persisted tool-call record (`ToolCall` in src/core/chat/interfaces). -/
structure ToolCall where
  toolName : String
  callParams : Json
  timestamp : Int
  success : Bool

/-- The chat document as stored: owner id and append-only tool-call history. -/
structure ChatDoc where
  userId : Option String := none
  toolCalls : List ToolCall := []

structure ToolCallsCacheParams where
  toolName : String
  callParams : Json

structure ToolCallsCacheResult where
  found : Bool
  previousCall : Option ToolCall
  shouldUseCache : Bool

/-- The match predicate of `ToolCallsCache.execute` (src/unnamed/part_001,
lines 46-50): same tool name, previously successful, deep-equal arguments. -/
def priorSuccessMatch (params : ToolCallsCacheParams) (call : ToolCall) : Bool :=
  call.toolName == params.toolName && call.success &&
    deepEqual call.callParams params.callParams

/-- Shallow embedding of `ToolCallsCache.execute` (src/unnamed/part_001,
lines 24-78): fetch the chat document, search its `toolCalls` history for a
prior successful call of the same tool with deep-equal parameters. -/
def ToolCallsCache.execute (chats : List (String × ChatDoc)) (chatId : String)
    (params : ToolCallsCacheParams) : ToolCallsCacheResult :=
  match lookupField chats chatId with
  | none => ⟨false, none, false⟩
  | some chatData =>
    match chatData.toolCalls.find? (priorSuccessMatch params) with
    | some previousCall => ⟨true, some previousCall, true⟩
    | none => ⟨false, none, false⟩

theorem priorSuccessMatch_eq_true {params : ToolCallsCacheParams} {call : ToolCall} :
    priorSuccessMatch params call = true ↔
      call.toolName = params.toolName ∧ call.success = true ∧
        deepEqual call.callParams params.callParams = true := by
  simp [priorSuccessMatch, Bool.and_eq_true, and_assoc]

/-- C8: `findPriorSuccess` (the `ToolCallsCache.execute` search) returns a
prior record iff the persisted history holds a record with the same tool
name, `success = true` and arguments deep-equal to the given ones; failed
calls are never matched, and the deep comparison is insensitive to the order
of object keys. -/
theorem findPriorSuccess_iff (chats : List (String × ChatDoc)) (chatId : String)
    (params : ToolCallsCacheParams) :
    (((ToolCallsCache.execute chats chatId params).found = true ↔
        ∃ chatData call, lookupField chats chatId = some chatData ∧
          call ∈ chatData.toolCalls ∧ call.toolName = params.toolName ∧
          call.success = true ∧ deepEqual call.callParams params.callParams = true) ∧
      (ToolCallsCache.execute chats chatId params).found =
        (ToolCallsCache.execute chats chatId params).previousCall.isSome ∧
      (∀ call, (ToolCallsCache.execute chats chatId params).previousCall = some call →
        call.success = true ∧ call.toolName = params.toolName ∧
          deepEqual call.callParams params.callParams = true)) ∧
    (∀ kvs1 kvs2 : List (String × Json), kvs1.Perm kvs2 →
      (kvs1.map Prod.fst).Nodup → wfFields kvs1 = true →
      deepEqual (.jobj kvs1) (.jobj kvs2) = true) := by
  refine ⟨?_, fun kvs1 kvs2 hp hnd hwf => deepEqual_key_order hp hnd hwf⟩
  cases hc : lookupField chats chatId with
  | none =>
    have he : ToolCallsCache.execute chats chatId params = ⟨false, none, false⟩ := by
      simp [ToolCallsCache.execute, hc]
    rw [he]
    refine ⟨?_, rfl, by simp⟩
    simp only [Bool.false_eq_true, false_iff]
    rintro ⟨chatData, call, hl, -⟩
    exact Option.noConfusion hl
  | some chatData =>
    cases hf : chatData.toolCalls.find? (priorSuccessMatch params) with
    | some previousCall =>
      have he : ToolCallsCache.execute chats chatId params =
          ⟨true, some previousCall, true⟩ := by
        simp [ToolCallsCache.execute, hc, hf]
      rw [he]
      refine ⟨?_, rfl, ?_⟩
      · simp only [true_iff]
        have hmem := List.mem_of_find?_eq_some hf
        have hp := priorSuccessMatch_eq_true.mp (List.find?_some hf)
        exact ⟨chatData, previousCall, rfl, hmem, hp.1, hp.2.1, hp.2.2⟩
      · rintro call h
        obtain rfl : previousCall = call := by simpa using h
        have hp := priorSuccessMatch_eq_true.mp (List.find?_some hf)
        exact ⟨hp.2.1, hp.1, hp.2.2⟩
    | none =>
      have he : ToolCallsCache.execute chats chatId params = ⟨false, none, false⟩ := by
        simp [ToolCallsCache.execute, hc, hf]
      rw [he]
      refine ⟨?_, rfl, by simp⟩
      simp only [Bool.false_eq_true, false_iff]
      rintro ⟨chatData2, call, hl, hmem, h1, h2, h3⟩
      obtain rfl : chatData = chatData2 := by simpa using hl
      have := List.find?_eq_none.mp hf call hmem
      exact this (priorSuccessMatch_eq_true.mpr ⟨h1, h2, h3⟩)

def c8Params : ToolCallsCacheParams :=
  ⟨"get_rendimientos", .jobj [("id", .jstr "123"), ("month", .jstr "July")]⟩

def c8Chat : ChatDoc :=
  { userId := some "u1",
    toolCalls := [
      { toolName := "get_rendimientos",
        callParams := .jobj [("id", .jstr "123"), ("month", .jstr "July")],
        timestamp := 5, success := false },
      { toolName := "get_rendimientos",
        callParams := .jobj [("id", .jstr "123"), ("month", .jstr "July")],
        timestamp := 9, success := true }] }

theorem findPriorSuccess_iff_witness :
    (ToolCallsCache.execute [("chat1", c8Chat)] "chat1" c8Params).found = true ∧
      deepEqual (.jobj [("a", .jnum 1), ("b", .jnum 2)])
        (.jobj [("b", .jnum 2), ("a", .jnum 1)]) = true := by
  constructor
  · refine (findPriorSuccess_iff [("chat1", c8Chat)] "chat1" c8Params).1.1.mpr
      ⟨c8Chat, c8Chat.toolCalls[1], by simp [lookupField], by simp [c8Chat], rfl, rfl, ?_⟩
    exact deepEqual_self _ (by simp [c8Chat, c8Params, wfJson, wfFields, wfList])
  · refine (findPriorSuccess_iff [] "x" c8Params).2 _ _ (List.Perm.swap _ _ _) ?_ ?_
    · simp
    · simp [wfFields, wfJson]

/-! ### MCP data model (src/core/mcp/interfaces.ts) -/

/-- A remote tool descriptor (`MCPTool`): name, description, JSON-Schema
parameters. -/
structure MCPTool where
  name : String
  description : String
  parameters : Json
deriving Repr

/-- A tool invocation (`MCPToolCall`); the argument map comes from the
adapter as a JS object. -/
structure MCPToolCall where
  toolName : String
  parameters : List (String × Json)
  callId : String
deriving Repr

/-- A tool invocation result (`MCPToolResult`): returned as data, never
thrown. -/
structure MCPToolResult where
  toolName : String
  callId : String
  success : Bool
  data : Option Json := none
  error : Option String := none
deriving Repr

/-- Per-tenant connection state (`MCPConnection`). -/
structure MCPConnection where
  centerId : String
  isConnected : Bool
  lastPing : Nat
  serverUrl : String
  serverStatus : String
deriving Repr, DecidableEq

/-- JS `Map.set`: replace the binding if the key exists, else append. -/
def setEntry {α : Type} : List (String × α) → String → α → List (String × α)
  | [], k, v => [(k, v)]
  | (k2, v2) :: rest, k, v =>
    if k2 == k then (k, v) :: rest else (k2, v2) :: setEntry rest k v

/-- JS `Map.delete`: remove the binding of the key, if present. -/
def removeEntry {α : Type} : List (String × α) → String → List (String × α)
  | [], _ => []
  | (k2, v2) :: rest, k =>
    if k2 == k then rest else (k2, v2) :: removeEntry rest k

/-! ### Tool Discovery Cache (`MCPToolCache`, src/core/mcp/interfaces.ts
lines 62-236 of the combined file) -/

/-- A cache entry: tools plus an absolute expiry timestamp. -/
structure CacheEntry where
  tools : List MCPTool
  expiry : Nat
deriving Repr

/-- The cache state: one entry per center. Times are milliseconds
(`Date.now()`), passed explicitly. -/
structure MCPToolCacheState where
  cache : List (String × CacheEntry)
deriving Repr

/-- The default TTL: 5 minutes in milliseconds. -/
def defaultTTL : Nat := 5 * 60 * 1000

/-- `MCPToolCache.cacheTools`: store the tools under
`expiry = now + defaultTTL`. -/
def cacheTools (st : MCPToolCacheState) (centerId : String) (tools : List MCPTool)
    (now : Nat) : MCPToolCacheState :=
  ⟨setEntry st.cache centerId { tools := tools, expiry := now + defaultTTL }⟩

/-- `MCPToolCache.getCachedTools`: return the cached tools unless the entry
is missing or `now` is strictly past its expiry (in which case the expired
entry is deleted and `none` returned). -/
def getCachedTools (st : MCPToolCacheState) (centerId : String) (now : Nat) :
    Option (List MCPTool) × MCPToolCacheState :=
  match lookupField st.cache centerId with
  | none => (none, st)
  | some entry =>
    if now > entry.expiry then (none, ⟨removeEntry st.cache centerId⟩)
    else (some entry.tools, st)

/-! ### Remote Tool Connection Manager (`MCPConnectionManager`,
src/core/mcp/MCPConnectionManager.ts) -/

/-- The (temporarily shared) MCP server URL of `getMCPServerUrl`. -/
def MCP_SERVER_URL : String :=
  "https://cd-cucuta-service-280914661682.us-central1.run.app/api/mcp"

/-- `getMCPServerUrl` (lines 182-193): the three known centers and the
default all map to the shared URL. -/
def getMCPServerUrl (centerId : String) : String :=
  match lookupField [("bogota", MCP_SERVER_URL), ("medellin", MCP_SERVER_URL),
      ("cucuta", MCP_SERVER_URL)] centerId with
  | some url => url
  | none => MCP_SERVER_URL

/-- The connection-manager state: per-center connections, the tool cache,
and the set of centers with an active health-check timer. -/
structure ManagerState where
  connections : List (String × MCPConnection)
  toolCache : MCPToolCacheState
  healthLoops : List String
deriving Repr

/-- `startHealthCheck` (lines 359-381): clears any existing timer for the
center and installs a new one; at most one loop per center. -/
def startHealthCheck (loops : List String) (centerId : String) : List String :=
  if loops.contains centerId then loops else centerId :: loops

/-- The fresh-connection path of `connectToCenter` (lines 27-52): build a
new connection record, probe the endpoint (`establishConnection`, outcome
given by `probeOk`), and either store a `connected` state and start the
health loop, or raise a `ConnectionError` leaving the state untouched.
The final `Nat` counts health probes issued. -/
def connectFresh (st : ManagerState) (centerId : String) (now : Nat) (probeOk : Bool) :
    Except String MCPConnection × ManagerState × Nat :=
  if probeOk then
    let connection : MCPConnection :=
      { centerId := centerId, isConnected := true, lastPing := now,
        serverUrl := getMCPServerUrl centerId, serverStatus := "connected" }
    (.ok connection,
      { st with connections := setEntry st.connections centerId connection,
                healthLoops := startHealthCheck st.healthLoops centerId }, 1)
  else
    (.error ("No se pudo conectar al servidor MCP del centro " ++ centerId), st, 1)

/-- `MCPConnectionManager.connectToCenter` (lines 16-57): reuse an existing
`connected` state unchanged, otherwise perform the handshake. -/
def connectToCenter (st : ManagerState) (centerId : String) (now : Nat) (probeOk : Bool) :
    Except String MCPConnection × ManagerState × Nat :=
  match lookupField st.connections centerId with
  | some existingConnection =>
    if existingConnection.isConnected then (.ok existingConnection, st, 0)
    else connectFresh st centerId now probeOk
  | none => connectFresh st centerId now probeOk

/-- Outcome of the `tools` manifest fetch of `fetchToolsFromMCPServer`. -/
inductive FetchOutcome where
  | ok (tools : List MCPTool)
  | notOk (status : Nat)
  | netFail (msg : String)
deriving Repr

/-- `fetchToolsFromMCPServer` (lines 219-257): a non-2xx status or any
thrown transport error is caught and yields an empty list; a 2xx response
yields the normalized tools. -/
def fetchToolsFromMCPServer (outcome : FetchOutcome) : List MCPTool :=
  match outcome with
  | .ok tools => tools
  | .notOk _ => []
  | .netFail _ => []

/-- `MCPConnectionManager.getAvailableTools` (lines 62-86): cache first; on
a miss ensure a connection (`connectToCenter`, whose failure propagates),
fetch the manifest and cache the result under the default TTL. The final
`Nat` counts remote discovery fetches issued. -/
def getAvailableTools (st : ManagerState) (centerId : String) (now : Nat)
    (probeOk : Bool) (outcome : FetchOutcome) :
    Except String (List MCPTool) × ManagerState × Nat :=
  match getCachedTools st.toolCache centerId now with
  | (some cachedTools, cache2) => (.ok cachedTools, { st with toolCache := cache2 }, 0)
  | (none, cache2) =>
    let st2 : ManagerState := { st with toolCache := cache2 }
    let needConnect : Bool :=
      match lookupField st2.connections centerId with
      | some connection => !connection.isConnected
      | none => true
    let afterConnect : Except String ManagerState :=
      if needConnect then
        match connectToCenter st2 centerId now probeOk with
        | (.ok _, st3, _) => .ok st3
        | (.error e, _, _) => .error e
      else .ok st2
    match afterConnect with
    | .error e => (.error e, st2, 0)
    | .ok st3 =>
      let tools := fetchToolsFromMCPServer outcome
      (.ok tools, { st3 with toolCache := cacheTools st3.toolCache centerId tools now }, 1)

/-- JS truthiness of a JSON value. -/
def jsTruthy : Json → Bool
  | .jnull => false
  | .jbool b => b
  | .jnum n => n != 0
  | .jstr s => !s.isEmpty
  | .jarr _ => true
  | .jobj _ => true

/-- JS property read on a JSON value: defined only for objects, `undefined`
(`none`) otherwise. -/
def getField (j : Json) (key : String) : Option Json :=
  match j with
  | .jobj kvs => lookupField kvs key
  | _ => none

/-- `result.error.message || 'Error desconocido del servidor MCP'`: take the
message when it is a truthy string, else the fixed default. -/
def mcpErrorMessage (err : Json) : String :=
  match getField err "message" with
  | some (.jstr s) => if s.isEmpty then "Error desconocido del servidor MCP" else s
  | _ => "Error desconocido del servidor MCP"

/-- `c.type === 'text'` on a content block. -/
def isTextBlock (c : Json) : Bool :=
  match getField c "type" with
  | some (.jstr s) => s == "text"
  | _ => false

/-- Outcome of the `tools/call` HTTP POST of `executeMCPTool`: the fetch may
throw (network error, 30s timeout), return a non-2xx status, or return a
parsed JSON body. -/
inductive HttpOutcome where
  | netFail (msg : String)
  | notOk (status : Nat) (statusText : String)
  | okBody (result : Json)
deriving Repr

/-- The data-extraction tail of `executeMCPTool` (lines 305-326). -/
def executeMCPToolData (toolCall : MCPToolCall) (result : Json)
    (parse : String → Option Json) : MCPToolResult :=
  let data0 := getField result "result"
  let data : Option Json :=
    match data0 with
    | some res =>
      match getField res "content" with
      | some (.jarr blocks) =>
        match blocks.find? isTextBlock with
        | some textContent =>
          match getField textContent "text" with
          | some (.jstr t) =>
            if t.isEmpty then data0
            else
              match parse t with
              | some parsed => some parsed
              | none => some (.jobj [("content", .jstr t)])
          | _ => data0
        | none => data0
      | _ => data0
    | none => none
  { toolName := toolCall.toolName, callId := toolCall.callId,
    success := true, data := data }

/-- `MCPConnectionManager.executeMCPTool` (lines 259-338), with `JSON.parse`
supplied as the `parse` argument: transport failures and explicit error
objects become failed results; a text content block is JSON-decoded
best-effort, non-JSON text being wrapped as `{content: text}`; everything is
returned as data (the outer catch turns any throw into a failed result). -/
def executeMCPTool (toolCall : MCPToolCall) (outcome : HttpOutcome)
    (parse : String → Option Json) : MCPToolResult :=
  match outcome with
  | .netFail msg =>
    { toolName := toolCall.toolName, callId := toolCall.callId,
      success := false, error := some msg }
  | .notOk status statusText =>
    { toolName := toolCall.toolName, callId := toolCall.callId,
      success := false,
      error := some ("Error HTTP " ++ toString status ++ ": " ++ statusText) }
  | .okBody result =>
    match getField result "error" with
    | some err =>
      if jsTruthy err then
        { toolName := toolCall.toolName, callId := toolCall.callId,
          success := false, error := some (mcpErrorMessage err) }
      else executeMCPToolData toolCall result parse
    | none => executeMCPToolData toolCall result parse

/-- `MCPConnectionManager.executeToolCall` (lines 91-116): require a
connected state (throwing inside the `try` otherwise), run the tool, and
convert any caught error into a failed `MCPToolResult`; never raises. -/
def executeToolCall (st : ManagerState) (centerId : String) (toolCall : MCPToolCall)
    (outcome : HttpOutcome) (parse : String → Option Json) : MCPToolResult :=
  let attempt : Except String MCPToolResult :=
    match lookupField st.connections centerId with
    | none => .error ("No hay conexión MCP activa para centro " ++ centerId)
    | some connection =>
      if !connection.isConnected then
        .error ("No hay conexión MCP activa para centro " ++ centerId)
      else .ok (executeMCPTool toolCall outcome parse)
  match attempt with
  | .ok result => result
  | .error e =>
    { toolName := toolCall.toolName, callId := toolCall.callId,
      success := false, error := some e }

/-! ### Fallback Tool Provider (`MCPFallbackHandler`, src/unnamed/part_013) -/

/-- The static fallback catalog built by `initializeFallbackTools`
(lines 108-143). -/
def fallbackToolsList : List MCPTool :=
  [{ name := "general_info",
     description := "Proporciona información general sobre procesos logísticos",
     parameters := .jobj
       [("type", .jstr "object"),
        ("properties", .jobj
          [("topic", .jobj
            [("type", .jstr "string"),
             ("description", .jstr "Tema sobre el que se necesita información")])]),
        ("required", .jarr [.jstr "topic"])] },
   { name := "contact_center",
     description := "Proporciona información de contacto del centro específico",
     parameters := .jobj
       [("type", .jstr "object"),
        ("properties", .jobj
          [("center_id", .jobj
            [("type", .jstr "string"),
             ("description", .jstr "ID del centro de distribución")])]),
        ("required", .jarr [.jstr "center_id"])] }]

/-- The `fallbackTools` map keyed by tool name. -/
def fallbackToolMap : List (String × MCPTool) :=
  fallbackToolsList.map (fun t => (t.name, t))

/-- `MCPFallbackHandler.hasFallback`. -/
def hasFallback (toolName : String) : Bool :=
  (lookupField fallbackToolMap toolName).isSome

/-- Models `x?.toLowerCase() || ''` on a possibly-absent JSON field: absent
or null gives the empty string, a string is lowercased, and any other value
throws a `TypeError` (later caught by `executeFallbackTool`). -/
def lowerOrEmpty : Option Json → Except String String
  | none => .ok ""
  | some .jnull => .ok ""
  | some (.jstr s) => .ok s.toLower
  | some _ => .error "TypeError: toLowerCase is not a function"

/-- JS `String.includes` as a substring test. -/
def strIncludes (s sub : String) : Bool :=
  (s.splitOn sub).length != 1

/-- The canned `general_info` fallback responses (lines 149-153). -/
def deliveryProcessText : String :=
  "El proceso de entrega incluye verificación de pedidos, carga del vehículo, seguimiento de ruta y confirmación de entrega."

def inventoryManagementText : String :=
  "El manejo de inventario se basa en sistemas de control de stock, rotación FIFO y reportes de disponibilidad."

def routeOptimizationText : String :=
  "La optimización de rutas considera factores como distancia, tráfico, capacidad del vehículo y ventanas de tiempo de clientes."

/-- The topic-matching chain of `executeFallbackGeneralInfo` (lines 200-219). -/
def generalInfoResponse (topic : String) : String :=
  if strIncludes topic "entrega" || strIncludes topic "delivery" then
    deliveryProcessText
  else if strIncludes topic "inventario" || strIncludes topic "inventory" then
    inventoryManagementText
  else if strIncludes topic "ruta" || strIncludes topic "route" then
    routeOptimizationText
  else "Información general no disponible para este tema."

/-- `executeFallbackGeneralInfo`: always a successful result once the topic
read succeeds. -/
def executeFallbackGeneralInfo (parameters : List (String × Json)) (callId : String) :
    Except String MCPToolResult :=
  match lowerOrEmpty (lookupField parameters "topic") with
  | .error e => .error e
  | .ok topic =>
    .ok { toolName := "general_info", callId := callId, success := true,
          data := some (.jobj [("topic", .jstr topic),
            ("response", .jstr (generalInfoResponse topic))]) }

/-- The `contact_center` canned contacts (lines 155-171), looked up by the
lowercased center id. -/
def contactFor (centerId : String) : Option Json :=
  lookupField
    [("bogota", .jobj [("phone", .jstr "+57 1 234-5678"),
        ("address", .jstr "Calle 123 #45-67, Bogotá"),
        ("hours", .jstr "Lunes a Viernes: 6:00 AM - 6:00 PM")]),
     ("medellin", .jobj [("phone", .jstr "+57 4 234-5678"),
        ("address", .jstr "Carrera 45 #12-34, Medellín"),
        ("hours", .jstr "Lunes a Viernes: 6:00 AM - 6:00 PM")]),
     ("cucuta", .jobj [("phone", .jstr "+57 7 234-5678"),
        ("address", .jstr "Avenida 12 #34-56, Cúcuta"),
        ("hours", .jstr "Lunes a Viernes: 6:00 AM - 6:00 PM")])]
    centerId

/-- `executeFallbackContactCenter` (lines 225-246): an unknown center id
yields a *failed* result. -/
def executeFallbackContactCenter (parameters : List (String × Json)) (callId : String) :
    Except String MCPToolResult :=
  match lowerOrEmpty (lookupField parameters "center_id") with
  | .error e => .error e
  | .ok centerId =>
    match contactFor centerId with
    | none =>
      .ok { toolName := "contact_center", callId := callId, success := false,
            error := some ("Información de contacto no disponible para centro " ++ centerId) }
    | some contact =>
      .ok { toolName := "contact_center", callId := callId, success := true,
            data := some (.jobj [("center_id", .jstr centerId), ("contact", contact)]) }

/-- `executeSpecificFallback` (lines 177-195): dispatch by tool name. -/
def executeSpecificFallback (toolCall : MCPToolCall) : Except String MCPToolResult :=
  match toolCall.toolName with
  | "general_info" => executeFallbackGeneralInfo toolCall.parameters toolCall.callId
  | "contact_center" => executeFallbackContactCenter toolCall.parameters toolCall.callId
  | other =>
    .ok { toolName := other, callId := toolCall.callId, success := false,
          error := some ("Fallback no implementado para " ++ other) }

/-- `MCPFallbackHandler.executeFallbackTool` (lines 29-56): unknown names
yield an explicit no-fallback failure; anything thrown by the specific
fallback is caught and converted to a failed result; never raises. -/
def executeFallbackTool (toolCall : MCPToolCall) : MCPToolResult :=
  if !hasFallback toolCall.toolName then
    { toolName := toolCall.toolName, callId := toolCall.callId, success := false,
      error := some ("No hay fallback disponible para la herramienta " ++ toolCall.toolName) }
  else
    match executeSpecificFallback toolCall with
    | .ok result => result
    | .error e =>
      { toolName := toolCall.toolName, callId := toolCall.callId, success := false,
        error := some e }

/-! ### Claim C3: idempotent connect -/

/-- C3: if a `connected` state already exists for the tenant, `connectToCenter`
returns that same state unchanged and issues no health probe. -/
theorem connectToCenter_idempotent (st : ManagerState) (centerId : String)
    (now : Nat) (probeOk : Bool) (c : MCPConnection)
    (hc : lookupField st.connections centerId = some c)
    (hconn : c.isConnected = true) :
    connectToCenter st centerId now probeOk = (.ok c, st, 0) := by
  simp [connectToCenter, hc, hconn]

def c3Conn : MCPConnection :=
  { centerId := "bogota", isConnected := true, lastPing := 100,
    serverUrl := MCP_SERVER_URL, serverStatus := "connected" }

def c3State : ManagerState :=
  { connections := [("bogota", c3Conn)], toolCache := ⟨[]⟩, healthLoops := ["bogota"] }

theorem connectToCenter_idempotent_witness :
    connectToCenter c3State "bogota" 200 false = (.ok c3Conn, c3State, 0) :=
  connectToCenter_idempotent c3State "bogota" 200 false c3Conn rfl rfl

/-! ### Claim C2: fallback provider -/

theorem hasFallback_iff (n : String) :
    hasFallback n = true ↔ n = "general_info" ∨ n = "contact_center" := by
  by_cases h1 : n = "general_info"
  · simp [hasFallback, fallbackToolMap, fallbackToolsList, lookupField, h1]
  · by_cases h2 : n = "contact_center"
    · simp [hasFallback, fallbackToolMap, fallbackToolsList, lookupField, h1, h2]
    · simp [hasFallback, fallbackToolMap, fallbackToolsList, lookupField,
        Ne.symm h1, Ne.symm h2, h1, h2]

/-- C2 (counterexample): `contact_center` is in the static fallback catalog,
yet invoking it with an unrecognized center id yields a result with
`success = false`, refuting "success = true for every argument map". -/
theorem fallback_success_counterexample :
    hasFallback "contact_center" = true ∧
      (executeFallbackTool ⟨"contact_center", [], "call_1"⟩).success = false := by
  constructor
  · rfl
  · decide

/-- C2 (amended): invoking any catalog tool through the fallback provider
always returns an `MCPToolResult` carrying the call's tool name and call id
(never raising); the result is successful exactly when the tool is
`general_info` with a readable topic, or `contact_center` with a readable
center id that is one of the known centers. -/
theorem executeFallbackTool_characterization (tc : MCPToolCall)
    (hcat : hasFallback tc.toolName = true) :
    (executeFallbackTool tc).toolName = tc.toolName ∧
    (executeFallbackTool tc).callId = tc.callId ∧
    ((executeFallbackTool tc).success = true ↔
      (tc.toolName = "general_info" ∧
        ∃ s, lowerOrEmpty (lookupField tc.parameters "topic") = .ok s) ∨
      (tc.toolName = "contact_center" ∧
        ∃ s, lowerOrEmpty (lookupField tc.parameters "center_id") = .ok s ∧
          (contactFor s).isSome = true)) := by
  obtain ⟨name, params, cid⟩ := tc
  rcases (hasFallback_iff name).mp hcat with rfl | rfl
  · cases hlo : lowerOrEmpty (lookupField params "topic") with
    | error e =>
      have he : executeFallbackTool ⟨"general_info", params, cid⟩ =
          { toolName := "general_info", callId := cid, success := false,
            error := some e } := by
        simp [executeFallbackTool, executeSpecificFallback,
          executeFallbackGeneralInfo, hlo, hasFallback, fallbackToolMap,
          fallbackToolsList, lookupField]
      rw [he]
      refine ⟨rfl, rfl, ?_⟩
      simp only [Bool.false_eq_true, false_iff]
      rintro (⟨-, s, hs⟩ | ⟨h, -⟩)
      · exact Except.noConfusion hs
      · exact absurd h (by decide)
    | ok topic =>
      have he : executeFallbackTool ⟨"general_info", params, cid⟩ =
          { toolName := "general_info", callId := cid, success := true,
            data := some (.jobj [("topic", .jstr topic),
              ("response", .jstr (generalInfoResponse topic))]) } := by
        simp [executeFallbackTool, executeSpecificFallback,
          executeFallbackGeneralInfo, hlo, hasFallback, fallbackToolMap,
          fallbackToolsList, lookupField]
      rw [he]
      refine ⟨rfl, rfl, ?_⟩
      simp only [true_iff]
      exact Or.inl ⟨by trivial, topic, by rfl⟩
  · cases hlo : lowerOrEmpty (lookupField params "center_id") with
    | error e =>
      have he : executeFallbackTool ⟨"contact_center", params, cid⟩ =
          { toolName := "contact_center", callId := cid, success := false,
            error := some e } := by
        simp [executeFallbackTool, executeSpecificFallback,
          executeFallbackContactCenter, hlo, hasFallback, fallbackToolMap,
          fallbackToolsList, lookupField]
      rw [he]
      refine ⟨rfl, rfl, ?_⟩
      simp only [Bool.false_eq_true, false_iff]
      rintro (⟨h, -⟩ | ⟨-, s, hs, -⟩)
      · exact absurd h (by decide)
      · exact Except.noConfusion hs
    | ok centerId =>
      cases hcf : contactFor centerId with
      | none =>
        have he : executeFallbackTool ⟨"contact_center", params, cid⟩ =
            { toolName := "contact_center", callId := cid, success := false,
              error := some ("Información de contacto no disponible para centro "
                ++ centerId) } := by
          simp [executeFallbackTool, executeSpecificFallback,
            executeFallbackContactCenter, hlo, hcf, hasFallback, fallbackToolMap,
            fallbackToolsList, lookupField]
        rw [he]
        refine ⟨rfl, rfl, ?_⟩
        simp only [Bool.false_eq_true, false_iff]
        rintro (⟨h, -⟩ | ⟨-, s, hs, hsome⟩)
        · exact absurd h (by decide)
        · obtain rfl : centerId = s := by simpa using hs
          rw [hcf] at hsome
          exact Bool.noConfusion hsome
      | some contact =>
        have he : executeFallbackTool ⟨"contact_center", params, cid⟩ =
            { toolName := "contact_center", callId := cid, success := true,
              data := some (.jobj [("center_id", .jstr centerId),
                ("contact", contact)]) } := by
          simp [executeFallbackTool, executeSpecificFallback,
            executeFallbackContactCenter, hlo, hcf, hasFallback, fallbackToolMap,
            fallbackToolsList, lookupField]
        rw [he]
        refine ⟨rfl, rfl, ?_⟩
        simp only [true_iff]
        exact Or.inr ⟨by trivial, centerId, by rfl, by rw [hcf]; rfl⟩

theorem executeFallbackTool_characterization_witness :
    (executeFallbackTool
      ⟨"general_info", [("topic", Json.jstr "Proceso de ENTREGA")], "call_2"⟩).success
      = true := by
  have h := executeFallbackTool_characterization
    ⟨"general_info", [("topic", Json.jstr "Proceso de ENTREGA")], "call_2"⟩ rfl
  exact h.2.2.mpr (Or.inl ⟨rfl, String.toLower "Proceso de ENTREGA", rfl⟩)

/-! ### Claims C4 and C10: discovery cache TTL -/

theorem lookupField_setEntry_self {α : Type} (l : List (String × α)) (k : String) (v : α) :
    lookupField (setEntry l k v) k = some v := by
  induction l with
  | nil => simp [setEntry, lookupField]
  | cons hd tl ih =>
    obtain ⟨k2, v2⟩ := hd
    by_cases h : k2 = k
    · simp [setEntry, lookupField, h]
    · simp [setEntry, lookupField, h, ih]

/-- A cache miss with an already-connected tenant: `getAvailableTools`
fetches once and caches the result under the default TTL. -/
theorem getAvailableTools_miss (st : ManagerState) (centerId : String) (t1 : Nat)
    (probeOk : Bool) (o : FetchOutcome) (cache2 : MCPToolCacheState) (c : MCPConnection)
    (hgc : getCachedTools st.toolCache centerId t1 = (none, cache2))
    (hc : lookupField st.connections centerId = some c)
    (hcc : c.isConnected = true) :
    getAvailableTools st centerId t1 probeOk o =
      (.ok (fetchToolsFromMCPServer o),
        { st with toolCache :=
            cacheTools cache2 centerId (fetchToolsFromMCPServer o) t1 }, 1) := by
  simp [getAvailableTools, hgc, hc, hcc]

/-- A cache hit strictly before (or at) expiry: `getAvailableTools` returns
the cached tools with no fetch and no state change. -/
theorem getAvailableTools_hit (st : ManagerState) (centerId : String) (t2 : Nat)
    (probeOk : Bool) (o : FetchOutcome) (entry : CacheEntry)
    (hentry : lookupField st.toolCache.cache centerId = some entry)
    (ht : t2 ≤ entry.expiry) :
    getAvailableTools st centerId t2 probeOk o = (.ok entry.tools, st, 0) := by
  have hnot : ¬ (t2 > entry.expiry) := by omega
  simp [getAvailableTools, getCachedTools, hentry, hnot]

/-- C4: two `listTools` calls within the TTL window (5 minutes after the
populating call) issue exactly one remote discovery fetch; a call strictly
past the entry's expiry issues a second fetch; and a cached tool set is
never returned at a time strictly past its expiry. -/
theorem listTools_cache_ttl (st : ManagerState) (centerId : String) (t1 t2 : Nat)
    (p1 p2 : Bool) (o2 : FetchOutcome) (ts : List MCPTool)
    (cache2 : MCPToolCacheState) (c : MCPConnection)
    (hgc : getCachedTools st.toolCache centerId t1 = (none, cache2))
    (hc : lookupField st.connections centerId = some c)
    (hcc : c.isConnected = true) :
    (getAvailableTools st centerId t1 p1 (.ok ts)).2.2 = 1 ∧
    (getAvailableTools st centerId t1 p1 (.ok ts)).1 = .ok ts ∧
    (t2 ≤ t1 + defaultTTL →
      getAvailableTools (getAvailableTools st centerId t1 p1 (.ok ts)).2.1
          centerId t2 p2 o2 =
        (.ok ts, (getAvailableTools st centerId t1 p1 (.ok ts)).2.1, 0)) ∧
    (t1 + defaultTTL < t2 →
      (getAvailableTools (getAvailableTools st centerId t1 p1 (.ok ts)).2.1
          centerId t2 p2 o2).2.2 = 1) ∧
    (∀ (cst : MCPToolCacheState) (cid : String) (now : Nat) (tools : List MCPTool),
      (getCachedTools cst cid now).1 = some tools →
      ∃ e, lookupField cst.cache cid = some e ∧ now ≤ e.expiry ∧ tools = e.tools) := by
  have h1 := getAvailableTools_miss st centerId t1 p1 (.ok ts) cache2 c hgc hc hcc
  have hfetch : fetchToolsFromMCPServer (.ok ts) = ts := rfl
  rw [hfetch] at h1
  have hentry : lookupField
      (cacheTools cache2 centerId ts t1).cache centerId =
      some { tools := ts, expiry := t1 + defaultTTL } := by
    simp [cacheTools, lookupField_setEntry_self]
  refine ⟨by rw [h1], by rw [h1], ?_, ?_, ?_⟩
  · intro ht
    rw [h1]
    exact getAvailableTools_hit _ centerId t2 p2 o2 ⟨ts, t1 + defaultTTL⟩ hentry ht
  · intro ht
    rw [h1]
    have hgt : t2 > t1 + defaultTTL := ht
    have hexp : getCachedTools
        { st with toolCache := cacheTools cache2 centerId ts t1 }.toolCache
        centerId t2 =
        (none, ⟨removeEntry (cacheTools cache2 centerId ts t1).cache centerId⟩) := by
      simp [getCachedTools, hentry, hgt]
    rw [getAvailableTools_miss _ centerId t2 p2 o2 _ c hexp hc hcc]
  · intro cst cid now tools htl
    cases hl : lookupField cst.cache cid with
    | none =>
      simp only [getCachedTools, hl] at htl
      exact Option.noConfusion htl
    | some e =>
      simp only [getCachedTools, hl] at htl
      by_cases hexp : now > e.expiry
      · rw [if_pos hexp] at htl
        exact Option.noConfusion htl
      · rw [if_neg hexp] at htl
        exact ⟨e, rfl, by omega, by simpa using htl.symm⟩

def c4Tool : MCPTool :=
  { name := "get_rendimientos", description := "Consulta rendimientos",
    parameters := .jobj [("type", .jstr "object")] }

theorem listTools_cache_ttl_witness :
    (getAvailableTools c3State "bogota" 1000 true (.ok [c4Tool])).2.2 = 1 ∧
      getAvailableTools (getAvailableTools c3State "bogota" 1000 true
          (.ok [c4Tool])).2.1 "bogota" 2000 true (.netFail "down") =
        (.ok [c4Tool],
          (getAvailableTools c3State "bogota" 1000 true (.ok [c4Tool])).2.1, 0) := by
  have h := listTools_cache_ttl c3State "bogota" 1000 2000 true true
    (.netFail "down") [c4Tool] ⟨[]⟩ c3Conn rfl rfl rfl
  exact ⟨h.1, h.2.2.1 (by decide)⟩

/-- C10: if the manifest fetch fails (non-2xx or thrown) after the
connection is ensured, `listTools` returns `ok []` (no error propagates) and
caches the empty list under the default TTL, so any further call within the
TTL window returns the empty list with no remote fetch. -/
theorem discovery_failure_caches_empty (st : ManagerState) (centerId : String)
    (t1 t2 : Nat) (p1 p2 : Bool) (o1 o2 : FetchOutcome)
    (cache2 : MCPToolCacheState) (c : MCPConnection)
    (hgc : getCachedTools st.toolCache centerId t1 = (none, cache2))
    (hc : lookupField st.connections centerId = some c)
    (hcc : c.isConnected = true)
    (ho : (∃ status, o1 = .notOk status) ∨ (∃ msg, o1 = .netFail msg)) :
    (getAvailableTools st centerId t1 p1 o1).1 = .ok [] ∧
    lookupField (getAvailableTools st centerId t1 p1 o1).2.1.toolCache.cache centerId =
      some { tools := [], expiry := t1 + defaultTTL } ∧
    (t2 ≤ t1 + defaultTTL →
      getAvailableTools (getAvailableTools st centerId t1 p1 o1).2.1 centerId t2 p2 o2 =
        (.ok [], (getAvailableTools st centerId t1 p1 o1).2.1, 0)) := by
  have hfetch : fetchToolsFromMCPServer o1 = [] := by
    rcases ho with ⟨status, rfl⟩ | ⟨msg, rfl⟩ <;> rfl
  have h1 := getAvailableTools_miss st centerId t1 p1 o1 cache2 c hgc hc hcc
  rw [hfetch] at h1
  have hentry : lookupField (cacheTools cache2 centerId [] t1).cache centerId =
      some { tools := [], expiry := t1 + defaultTTL } := by
    simp [cacheTools, lookupField_setEntry_self]
  refine ⟨by rw [h1], by rw [h1]; exact hentry, ?_⟩
  intro ht
  rw [h1]
  exact getAvailableTools_hit _ centerId t2 p2 o2 ⟨[], t1 + defaultTTL⟩ hentry ht

theorem discovery_failure_caches_empty_witness :
    (getAvailableTools c3State "bogota" 1000 true (.notOk 500)).1 = .ok [] ∧
      getAvailableTools (getAvailableTools c3State "bogota" 1000 true
          (.notOk 500)).2.1 "bogota" 301000 true (.ok [c4Tool]) =
        (.ok [],
          (getAvailableTools c3State "bogota" 1000 true (.notOk 500)).2.1, 0) := by
  have h := discovery_failure_caches_empty c3State "bogota" 1000 301000 true true
    (.notOk 500) (.ok [c4Tool]) ⟨[]⟩ c3Conn rfl rfl rfl (Or.inl ⟨500, rfl⟩)
  exact ⟨h.1, h.2.2 (by decide)⟩

/-! ### Claim C5: tool invocation never raises -/

theorem executeMCPToolData_ids (tc : MCPToolCall) (body : Json)
    (p : String → Option Json) :
    (executeMCPToolData tc body p).toolName = tc.toolName ∧
      (executeMCPToolData tc body p).callId = tc.callId :=
  ⟨rfl, rfl⟩

theorem executeMCPTool_ids (tc : MCPToolCall) (o : HttpOutcome)
    (p : String → Option Json) :
    (executeMCPTool tc o p).toolName = tc.toolName ∧
      (executeMCPTool tc o p).callId = tc.callId := by
  cases o with
  | netFail msg => exact ⟨rfl, rfl⟩
  | notOk status statusText => exact ⟨rfl, rfl⟩
  | okBody body =>
    cases hge : getField body "error" with
    | none =>
      simp only [executeMCPTool, hge]
      exact executeMCPToolData_ids tc body p
    | some err =>
      by_cases ht : jsTruthy err = true
      · simp [executeMCPTool, hge, ht]
      · simp only [executeMCPTool, hge, if_neg ht]
        exact executeMCPToolData_ids tc body p

/-- C5: for every connection state and every outcome of the remote call
(no connected state, transport failure, non-2xx status, explicit error
object, non-JSON text content), `executeToolCall` returns an
`MCPToolResult` correlated to the invocation by tool name and call id —
failed with an error message on any transport or decode failure, and
successful with the raw text wrapped as a `{content: ...}` payload when the
text block is not valid JSON. It never raises: every caught throw is
converted into a failed result. -/
theorem executeToolCall_never_raises (st : ManagerState) (centerId : String)
    (toolCall : MCPToolCall) (outcome : HttpOutcome) (parse : String → Option Json) :
    ((executeToolCall st centerId toolCall outcome parse).toolName = toolCall.toolName ∧
     (executeToolCall st centerId toolCall outcome parse).callId = toolCall.callId) ∧
    ((lookupField st.connections centerId = none ∨
        (∃ c, lookupField st.connections centerId = some c ∧ c.isConnected = false)) →
      executeToolCall st centerId toolCall outcome parse =
        { toolName := toolCall.toolName, callId := toolCall.callId, success := false,
          error := some ("No hay conexión MCP activa para centro " ++ centerId) }) ∧
    (∀ msg, outcome = .netFail msg →
      (executeToolCall st centerId toolCall outcome parse).success = false ∧
      (executeToolCall st centerId toolCall outcome parse).error.isSome = true) ∧
    (∀ status statusText, outcome = .notOk status statusText →
      (executeToolCall st centerId toolCall outcome parse).success = false ∧
      (executeToolCall st centerId toolCall outcome parse).error.isSome = true) ∧
    (∀ body err, outcome = .okBody body → getField body "error" = some err →
      jsTruthy err = true →
      (executeToolCall st centerId toolCall outcome parse).success = false ∧
      (executeToolCall st centerId toolCall outcome parse).error.isSome = true) ∧
    (∀ c body res blocks tb t, lookupField st.connections centerId = some c →
      c.isConnected = true → outcome = .okBody body →
      getField body "error" = none →
      getField body "result" = some res →
      getField res "content" = some (.jarr blocks) →
      blocks.find? isTextBlock = some tb →
      getField tb "text" = some (.jstr t) →
      t.isEmpty = false → parse t = none →
      executeToolCall st centerId toolCall outcome parse =
        { toolName := toolCall.toolName, callId := toolCall.callId, success := true,
          data := some (.jobj [("content", .jstr t)]) }) := by
  have hfail : ∀ (r : MCPToolResult),
      r.success = false → r.error.isSome = true →
      r.success = false ∧ r.error.isSome = true := fun r h1 h2 => ⟨h1, h2⟩
  refine ⟨?_, ?_, ?_, ?_, ?_, ?_⟩
  · cases hl : lookupField st.connections centerId with
    | none => simp [executeToolCall, hl]
    | some c =>
      by_cases hcc : c.isConnected = true
      · simp only [executeToolCall, hl, hcc, Bool.not_true, Bool.false_eq_true, if_false]
        exact executeMCPTool_ids toolCall outcome parse
      · have hf : c.isConnected = false := by revert hcc; cases c.isConnected <;> simp
        simp [executeToolCall, hl, hf]
  · rintro (hl | ⟨c, hl, hcc⟩)
    · simp [executeToolCall, hl]
    · simp [executeToolCall, hl, hcc]
  · rintro msg rfl
    cases hl : lookupField st.connections centerId with
    | none => simp [executeToolCall, hl]
    | some c =>
      by_cases hcc : c.isConnected = true
      · simp [executeToolCall, hl, hcc, executeMCPTool]
      · have hf : c.isConnected = false := by revert hcc; cases c.isConnected <;> simp
        simp [executeToolCall, hl, hf]
  · rintro status statusText rfl
    cases hl : lookupField st.connections centerId with
    | none => simp [executeToolCall, hl]
    | some c =>
      by_cases hcc : c.isConnected = true
      · simp [executeToolCall, hl, hcc, executeMCPTool]
      · have hf : c.isConnected = false := by revert hcc; cases c.isConnected <;> simp
        simp [executeToolCall, hl, hf]
  · rintro body err rfl hge htr
    cases hl : lookupField st.connections centerId with
    | none => simp [executeToolCall, hl]
    | some c =>
      by_cases hcc : c.isConnected = true
      · simp [executeToolCall, hl, hcc, executeMCPTool, hge, htr]
      · have hf : c.isConnected = false := by revert hcc; cases c.isConnected <;> simp
        simp [executeToolCall, hl, hf]
  · rintro c body res blocks tb t hl hcc rfl hge hres hcontent hfind htext hempty hparse
    simp [executeToolCall, hl, hcc, executeMCPTool, hge, executeMCPToolData,
      hres, hcontent, hfind, htext, hempty, hparse]

theorem executeToolCall_never_raises_witness :
    executeToolCall ⟨[], ⟨[]⟩, []⟩ "bogota" ⟨"check_inventory", [], "call_9"⟩
        (.netFail "timeout") (fun _ => none) =
      { toolName := "check_inventory", callId := "call_9", success := false,
        error := some ("No hay conexión MCP activa para centro bogota") } := by
  have h := executeToolCall_never_raises ⟨[], ⟨[]⟩, []⟩ "bogota"
    ⟨"check_inventory", [], "call_9"⟩ (.netFail "timeout") (fun _ => none)
  exact h.2.1 (Or.inl rfl)

/-! ### Claim C9: `ChatManager.deleteUserChat` (src/unnamed/part_005) -/

/-- The persisted store: one chat record per id, one ordered message
sub-collection per chat (message doc ids modelled as numbers). -/
structure FireStoreState where
  chats : List (String × ChatDoc)
  msgs : List (String × List Nat)

/-- Primitive deletions issued against the store, in order. -/
inductive DelEvent where
  | msgBatch (chatId : String) (size : Nat)
  | chatDoc (chatId : String)
deriving Repr, DecidableEq

/-- `deleteQueryBatch` (part_005, lines 135-157): delete the message
sub-collection in batches of 50, one committed batch per round, until a
query round comes back empty. -/
def deleteQueryBatch (chatId : String) (msgs : List Nat) : List DelEvent :=
  match msgs with
  | [] => []
  | x :: xs =>
    .msgBatch chatId (min 50 (x :: xs).length) :: deleteQueryBatch chatId ((x :: xs).drop 50)
termination_by msgs.length
decreasing_by simp [List.length_drop]; omega

/-- `ChatManager.deleteUserChat` (part_005, lines 88-117): when an owner id
is supplied, fetch the chat record and throw before any deletion if the
record is missing or the stored owner differs; otherwise delete the message
sub-collection first and the chat record second. -/
def deleteUserChat (st : FireStoreState) (chatId : String) (userId : Option String) :
    Except String (FireStoreState × List DelEvent) :=
  let check : Except String Unit :=
    match userId with
    | none => .ok ()
    | some uid =>
      match lookupField st.chats chatId with
      | none => .error ("Chat " ++ chatId ++ " no existe")
      | some chatData =>
        if chatData.userId == some uid then .ok ()
        else .error ("Usuario " ++ uid ++ " no tiene permisos para eliminar el chat " ++ chatId)
  match check with
  | .error e => .error e
  | .ok _ =>
    let messages := (lookupField st.msgs chatId).getD []
    let events := deleteQueryBatch chatId messages ++ [.chatDoc chatId]
    .ok ({ chats := removeEntry st.chats chatId, msgs := removeEntry st.msgs chatId },
      events)

theorem lookupField_eq_none_of_forall {α : Type} {l : List (String × α)} {k : String}
    (h : ∀ p ∈ l, p.1 ≠ k) : lookupField l k = none := by
  induction l with
  | nil => rfl
  | cons hd tl ih =>
    obtain ⟨k2, v2⟩ := hd
    have hne : ¬ (k2 = k) := h (k2, v2) (List.mem_cons_self _ _)
    simp only [lookupField, beq_iff_eq, hne, if_false]
    exact ih (fun p hp => h p (List.mem_cons_of_mem _ hp))

theorem lookupField_removeEntry {α : Type} {l : List (String × α)} {k : String}
    (hnd : (l.map Prod.fst).Nodup) : lookupField (removeEntry l k) k = none := by
  induction l with
  | nil => rfl
  | cons hd tl ih =>
    obtain ⟨k2, v2⟩ := hd
    simp only [List.map_cons, List.nodup_cons] at hnd
    by_cases h : k2 = k
    · subst h
      simp only [removeEntry, beq_self_eq_true, if_true]
      exact lookupField_eq_none_of_forall (fun p hp heq => hnd.1 (heq ▸ List.mem_map_of_mem Prod.fst hp))
    · simp only [removeEntry, beq_iff_eq, h, if_false, lookupField]
      exact ih hnd.2

/-- The size recorded for a message-batch deletion (zero for the record
deletion). -/
def delEventSize : DelEvent → Nat
  | .msgBatch _ n => n
  | .chatDoc _ => 0

theorem deleteQueryBatch_spec (c : String) :
    ∀ (n : Nat) (l : List Nat), l.length ≤ n →
    (∀ e ∈ deleteQueryBatch c l, ∃ m, e = .msgBatch c m) ∧
      ((deleteQueryBatch c l).map delEventSize).sum = l.length := by
  intro n
  induction n with
  | zero =>
    intro l hl
    have : l = [] := List.length_eq_zero.mp (by omega)
    subst this
    exact ⟨by simp [deleteQueryBatch], by simp [deleteQueryBatch]⟩
  | succ n ih =>
    intro l hl
    cases l with
    | nil => exact ⟨by simp [deleteQueryBatch], by simp [deleteQueryBatch]⟩
    | cons x xs =>
      have heq : deleteQueryBatch c (x :: xs) =
          .msgBatch c (min 50 (x :: xs).length) ::
            deleteQueryBatch c ((x :: xs).drop 50) := by
        rw [deleteQueryBatch]
      have hlen : ((x :: xs).drop 50).length ≤ n := by
        simp only [List.length_drop, List.length_cons]
        simp only [List.length_cons] at hl
        omega
      obtain ⟨ih1, ih2⟩ := ih ((x :: xs).drop 50) hlen
      constructor
      · intro e he
        rw [heq] at he
        rcases List.mem_cons.mp he with rfl | he2
        · exact ⟨_, rfl⟩
        · exact ih1 e he2
      · rw [heq]
        simp only [List.map_cons, List.sum_cons, ih2, delEventSize, List.length_drop]
        simp only [List.length_cons]
        omega

/-- C9: `deleteUserChat` rejects — deleting nothing — whenever the supplied
owner id does not match the stored owner; on success it deletes every
message of the conversation strictly before deleting the conversation
record itself. -/
theorem deleteConversation_ownership_and_order (st : FireStoreState) (chatId : String)
    (uid : String)
    (hnd1 : (st.chats.map Prod.fst).Nodup) (hnd2 : (st.msgs.map Prod.fst).Nodup) :
    (∀ chatData, lookupField st.chats chatId = some chatData →
      chatData.userId ≠ some uid →
      deleteUserChat st chatId (some uid) =
        .error ("Usuario " ++ uid ++ " no tiene permisos para eliminar el chat " ++ chatId)) ∧
    (lookupField st.chats chatId = none →
      deleteUserChat st chatId (some uid) = .error ("Chat " ++ chatId ++ " no existe")) ∧
    (∀ st2 events, deleteUserChat st chatId (some uid) = .ok (st2, events) →
      lookupField st2.chats chatId = none ∧
      lookupField st2.msgs chatId = none ∧
      events.getLast? = some (.chatDoc chatId) ∧
      (∀ e ∈ events.dropLast, ∃ m, e = .msgBatch chatId m) ∧
      ((events.dropLast.map delEventSize).sum =
        ((lookupField st.msgs chatId).getD []).length)) := by
  refine ⟨?_, ?_, ?_⟩
  · intro chatData hc hne
    have hbeq : (chatData.userId == some uid) = false := by
      cases h : chatData.userId == some uid
      · rfl
      · exact absurd (eq_of_beq h) hne
    simp [deleteUserChat, hc, hbeq]
  · intro hc
    simp [deleteUserChat, hc]
  · intro st2 events hok
    cases hc : lookupField st.chats chatId with
    | none => simp [deleteUserChat, hc] at hok
    | some chatData =>
      by_cases hbeq : (chatData.userId == some uid) = true
      · simp only [deleteUserChat, hc, hbeq, if_true] at hok
        rw [Except.ok.injEq, Prod.mk.injEq] at hok
        obtain ⟨hst, hev⟩ := hok
        subst hst
        subst hev
        obtain ⟨hall, hsum⟩ := deleteQueryBatch_spec chatId
          ((lookupField st.msgs chatId).getD []).length
          ((lookupField st.msgs chatId).getD []) le_rfl
        refine ⟨lookupField_removeEntry hnd1, lookupField_removeEntry hnd2, ?_, ?_, ?_⟩
        · simp
        · intro e he
          rw [List.dropLast_concat] at he
          exact hall e he
        · rw [List.dropLast_concat]
          exact hsum
      · have hf : (chatData.userId == some uid) = false := by
          revert hbeq; cases chatData.userId == some uid <;> simp
        simp [deleteUserChat, hc, hf] at hok

def c9Store : FireStoreState :=
  { chats := [("c1", { userId := some "u1", toolCalls := [] })],
    msgs := [("c1", [1, 2, 3])] }

theorem deleteConversation_ownership_and_order_witness :
    deleteUserChat c9Store "c1" (some "intruder") =
      .error "Usuario intruder no tiene permisos para eliminar el chat c1" ∧
    (lookupField c9Store.chats "c1" = some { userId := some "u1", toolCalls := [] } ∧
      ∃ st2 events, deleteUserChat c9Store "c1" (some "u1") = .ok (st2, events) ∧
        lookupField st2.chats "c1" = none ∧
        events.getLast? = some (.chatDoc "c1") ∧
        (events.dropLast.map delEventSize).sum = 3) := by
  have h := deleteConversation_ownership_and_order c9Store "c1" "intruder"
    (by simp [c9Store]) (by simp [c9Store])
  have h2 := deleteConversation_ownership_and_order c9Store "c1" "u1"
    (by simp [c9Store]) (by simp [c9Store])
  have hok : deleteUserChat c9Store "c1" (some "u1") =
      .ok ({ chats := [], msgs := [] },
        [.msgBatch "c1" 3, .chatDoc "c1"]) := by
    simp [deleteUserChat, c9Store, lookupField, removeEntry, deleteQueryBatch]
  refine ⟨h.1 { userId := some "u1", toolCalls := [] } (by simp [c9Store, lookupField])
      (by simp), ?_⟩
  refine ⟨by simp [c9Store, lookupField], ⟨{ chats := [], msgs := [] },
    [.msgBatch "c1" 3, .chatDoc "c1"], hok, ?_, ?_, ?_⟩⟩
  · exact (h2.2.2 _ _ hok).1
  · exact (h2.2.2 _ _ hok).2.2.1
  · simpa using (h2.2.2 _ _ hok).2.2.2.2

/-! ### Claim C6: Tool Schema Adapter (`MCPAdapter`, src/unnamed/part_010) -/

/-- The schema keywords Google GenAI accepts (`allowedFields`,
part_010 lines 95-99). -/
def allowedFields : List String :=
  ["type", "description", "enum", "pattern", "minimum", "maximum",
   "minLength", "maxLength", "items", "properties", "required",
   "additionalProperties", "default"]

mutual

/-- JS template-literal stringification of a JSON value (arrays join their
elements with commas, objects print as `[object Object]`). -/
def jsTemplate : Json → String
  | .jnull => "null"
  | .jbool b => if b then "true" else "false"
  | .jnum n => toString n
  | .jstr s => s
  | .jarr xs => jsTemplateList xs
  | .jobj _ => "[object Object]"
termination_by j => sizeOf j

def jsTemplateList : List Json → String
  | [] => ""
  | [x] => jsTemplate x
  | x :: y :: xs => jsTemplate x ++ "," ++ jsTemplateList (y :: xs)
termination_by xs => sizeOf xs

end

/-- `Object.entries` of a JSON value: the bindings of an object, the
index-keyed elements of an array, the index-keyed characters of a string,
nothing for primitives. -/
def jsEntries : Json → List (String × Json)
  | .jobj kvs => kvs
  | .jarr xs => indexKeyed 0 xs
  | .jstr s => indexKeyed 0 (s.toList.map (fun c => Json.jstr (String.singleton c)))
  | _ => []

/-- The bulleted enum-description list of `cleanPropertiesForGenAI`
(part_010 lines 109-112): one `• key: description` line per entry. -/
def enumDescLines (eds : List (String × Json)) : String :=
  String.intercalate "\n" (eds.map (fun p => "• " ++ p.1 ++ ": " ++ jsTemplate p.2))

/-- The per-property cleaning loop body of `cleanPropertiesForGenAI`
(part_010 lines 89-122): for object-valued schemas copy only the allowed
keywords, then fold a present `enumDescriptions` map (when an `enum` is also
present) into the property's `description`; non-object values (and `null`)
are copied unchanged, and arrays — being JS objects with no allowed
keyword — clean to an empty object. -/
def cleanValue (v : Json) : Json :=
  match v with
  | .jobj kvs =>
    let cleaned : List (String × Json) :=
      allowedFields.filterMap (fun f => (lookupField kvs f).map (fun x => (f, x)))
    match lookupField kvs "enumDescriptions", lookupField kvs "enum" with
    | some ed, some en =>
      if jsTruthy ed && jsTruthy en then
        let newDescription : Json :=
          match lookupField cleaned "description" with
          | some d =>
            if jsTruthy d then
              .jstr (jsTemplate d ++ "\n\nOpciones disponibles:\n" ++
                enumDescLines (jsEntries ed))
            else .jstr ("Opciones disponibles:\n" ++ enumDescLines (jsEntries ed))
          | none => .jstr ("Opciones disponibles:\n" ++ enumDescLines (jsEntries ed))
        .jobj (setEntry cleaned "description" newDescription)
      else .jobj cleaned
    | _, _ => .jobj cleaned
  | .jarr _ => .jobj []
  | other => other

/-- `MCPAdapter.cleanPropertiesForGenAI` (part_010 lines 86-126). -/
def cleanPropertiesForGenAI (properties : List (String × Json)) : List (String × Json) :=
  properties.map (fun p => (p.1, cleanValue p.2))

/-- The inference-service schema produced by
`MCPAdapter.convertMCPParametersToGenAI` (part_010 lines 62-80). -/
structure GenAISchema where
  type : String
  properties : List (String × Json)
  required : Json

/-- `MCPAdapter.convertMCPParametersToGenAI`: non-object parameters give the
empty object schema; otherwise properties are cleaned and `required` kept
(or defaulted to an empty array). -/
def convertMCPParametersToGenAI (mcpParameters : Json) : GenAISchema :=
  match mcpParameters with
  | .jarr elems =>
    { type := "OBJECT",
      properties := cleanPropertiesForGenAI
        (match getField (.jarr elems) "properties" with
         | some p => if jsTruthy p then jsEntries p else []
         | none => []),
      required :=
        match getField (.jarr elems) "required" with
        | some r => if jsTruthy r then r else .jarr []
        | none => .jarr [] }
  | .jobj kvs =>
    { type := "OBJECT",
      properties := cleanPropertiesForGenAI
        (match lookupField kvs "properties" with
         | some p => if jsTruthy p then jsEntries p else []
         | none => []),
      required :=
        match lookupField kvs "required" with
        | some r => if jsTruthy r then r else .jarr []
        | none => .jarr [] }
  | _ => { type := "OBJECT", properties := [], required := .jarr [] }

theorem mem_filterMap_allowed {g : String → Option Json} {p : String × Json}
    {keys : List String}
    (hp : p ∈ keys.filterMap (fun k => (g k).map (fun x => (k, x)))) : p.1 ∈ keys := by
  obtain ⟨k, hk, hx⟩ := List.mem_filterMap.mp hp
  cases hgk : g k with
  | none => rw [hgk] at hx; simp at hx
  | some x =>
    rw [hgk] at hx
    obtain rfl : (k, x) = p := by simpa using hx
    exact hk

theorem mem_setEntry {α : Type} {l : List (String × α)} {k : String} {v : α}
    {p : String × α} (hp : p ∈ setEntry l k v) :
    p.1 ∈ l.map Prod.fst ∨ p.1 = k := by
  induction l with
  | nil =>
    simp only [setEntry, List.mem_singleton] at hp
    subst hp
    exact Or.inr rfl
  | cons hd tl ih =>
    obtain ⟨k2, v2⟩ := hd
    by_cases h : k2 = k
    · subst h
      simp only [setEntry, beq_self_eq_true, if_true] at hp
      rcases List.mem_cons.mp hp with rfl | hp2
      · exact Or.inr rfl
      · exact Or.inl (List.mem_cons_of_mem _ (List.mem_map_of_mem Prod.fst hp2))
    · simp only [setEntry, beq_iff_eq, h, if_false] at hp
      rcases List.mem_cons.mp hp with rfl | hp2
      · exact Or.inl (List.mem_cons_self _ _)
      · rcases ih hp2 with hin | hk
        · exact Or.inl (List.mem_cons_of_mem _ hin)
        · exact Or.inr hk

theorem lookupField_filterMap_allowed (keys : List String) (g : String → Option Json)
    (f : String) (hnd : keys.Nodup) (hf : f ∈ keys) :
    lookupField (keys.filterMap (fun k => (g k).map (fun x => (k, x)))) f = g f := by
  induction keys with
  | nil => simp at hf
  | cons k rest ih =>
    simp only [List.nodup_cons] at hnd
    by_cases hk : k = f
    · subst hk
      cases hgk : g k with
      | some x =>
        have hstep : (k :: rest).filterMap (fun k2 => (g k2).map (fun x => (k2, x))) =
            (k, x) :: rest.filterMap (fun k2 => (g k2).map (fun x => (k2, x))) := by
          simp [List.filterMap_cons, hgk]
        rw [hstep]
        simp [lookupField]
      | none =>
        have hstep : (k :: rest).filterMap (fun k2 => (g k2).map (fun x => (k2, x))) =
            rest.filterMap (fun k2 => (g k2).map (fun x => (k2, x))) := by
          simp [List.filterMap_cons, hgk]
        rw [hstep]
        exact lookupField_eq_none_of_forall
          (fun p hp heq => hnd.1 (heq ▸ mem_filterMap_allowed hp))
    · rcases List.mem_cons.mp hf with rfl | hf2
      · exact absurd rfl hk
      · cases hgk : g k with
        | some x =>
          have hstep : (k :: rest).filterMap (fun k2 => (g k2).map (fun x => (k2, x))) =
              (k, x) :: rest.filterMap (fun k2 => (g k2).map (fun x => (k2, x))) := by
            simp [List.filterMap_cons, hgk]
          rw [hstep, lookupField]
          rw [if_neg (by simpa using hk)]
          exact ih hnd.2 hf2
        | none =>
          have hstep : (k :: rest).filterMap (fun k2 => (g k2).map (fun x => (k2, x))) =
              rest.filterMap (fun k2 => (g k2).map (fun x => (k2, x))) := by
            simp [List.filterMap_cons, hgk]
          rw [hstep]
          exact ih hnd.2 hf2

/-- C6: converting a tool descriptor's parameter schema keeps only the
accepted schema keywords per property (so `examples` and `enumDescriptions`
never survive), and whenever a property carries an `enumDescriptions` map
together with an `enum`, the map's entries are folded into that property's
description as a bulleted list, one `• key: description` line per entry. -/
theorem cleanProperties_strips_and_folds (props : List (String × Json)) :
    cleanPropertiesForGenAI props = props.map (fun p => (p.1, cleanValue p.2)) ∧
    (∀ kvs : List (String × Json), ∃ out, cleanValue (.jobj kvs) = .jobj out ∧
      (∀ p ∈ out, p.1 ∈ allowedFields) ∧
      lookupField out "examples" = none ∧
      lookupField out "enumDescriptions" = none ∧
      (∀ eds en, lookupField kvs "enumDescriptions" = some (.jobj eds) →
        lookupField kvs "enum" = some en → jsTruthy en = true →
        lookupField out "description" = some (.jstr (
          (match lookupField kvs "description" with
           | some d => if jsTruthy d then
               jsTemplate d ++ "\n\nOpciones disponibles:\n"
             else "Opciones disponibles:\n"
           | none => "Opciones disponibles:\n") ++ enumDescLines eds)))) := by
  refine ⟨rfl, ?_⟩
  intro kvs
  have hnd : allowedFields.Nodup := by decide
  have hdesc : "description" ∈ allowedFields := by decide
  have hkeys : ∀ p ∈ allowedFields.filterMap
      (fun f => (lookupField kvs f).map (fun x => (f, x))), p.1 ∈ allowedFields :=
    fun p hp => mem_filterMap_allowed hp
  have hnone : ∀ (bad : String), bad ∉ allowedFields →
      ∀ (l : List (String × Json)), (∀ p ∈ l, p.1 ∈ allowedFields) →
      lookupField l bad = none := by
    intro bad hbad l hl
    exact lookupField_eq_none_of_forall (fun p hp heq => hbad (heq ▸ hl p hp))
  have hsetkeys : ∀ (v : Json) (p : String × Json),
      p ∈ setEntry (allowedFields.filterMap
        (fun f => (lookupField kvs f).map (fun x => (f, x)))) "description" v →
      p.1 ∈ allowedFields := by
    intro v p hp
    rcases mem_setEntry hp with hin | hk
    · obtain ⟨q, hq, hq2⟩ := List.mem_map.mp hin
      exact hq2 ▸ hkeys q hq
    · exact hk ▸ hdesc
  cases hed : lookupField kvs "enumDescriptions" with
  | none =>
    refine ⟨_, by simp only [cleanValue, hed], hkeys,
      hnone "examples" (by decide) _ hkeys,
      hnone "enumDescriptions" (by decide) _ hkeys, ?_⟩
    intro eds en heds
    exact absurd heds (by simp)
  | some ed =>
    cases hen : lookupField kvs "enum" with
    | none =>
      refine ⟨_, by simp only [cleanValue, hed, hen], hkeys,
        hnone "examples" (by decide) _ hkeys,
        hnone "enumDescriptions" (by decide) _ hkeys, ?_⟩
      intro eds en heds henn
      exact absurd henn (by simp)
    | some en =>
      by_cases htr : (jsTruthy ed && jsTruthy en) = true
      · refine ⟨_, by simp only [cleanValue, hed, hen]; rw [if_pos htr], ?_, ?_, ?_, ?_⟩
        · exact hsetkeys _
        · exact hnone "examples" (by decide) _ (hsetkeys _)
        · exact hnone "enumDescriptions" (by decide) _ (hsetkeys _)
        · intro eds en2 heds hen2 htr2
          obtain rfl : ed = .jobj eds := by simpa using heds
          rw [lookupField_setEntry_self]
          have hcd := lookupField_filterMap_allowed allowedFields
            (fun f => lookupField kvs f) "description" hnd hdesc
          simp only [] at hcd
          rw [hcd]
          cases hd : lookupField kvs "description" with
          | none => simp [jsEntries]
          | some d =>
            by_cases htd : jsTruthy d = true
            · simp [htd, jsEntries]
            · have htd2 : jsTruthy d = false := by
                revert htd; cases jsTruthy d <;> simp
              simp [htd2, jsEntries]
      · have hf : (jsTruthy ed && jsTruthy en) = false := by
          revert htr; cases jsTruthy ed <;> cases jsTruthy en <;> simp
        refine ⟨_, by simp only [cleanValue, hed, hen]; rw [if_neg htr], hkeys,
          hnone "examples" (by decide) _ hkeys,
          hnone "enumDescriptions" (by decide) _ hkeys, ?_⟩
        intro eds en2 heds hen2 htr2
        obtain rfl : ed = .jobj eds := by simpa using heds
        obtain rfl : en = en2 := by simpa using hen2
        have hx : jsTruthy (Json.jobj eds) = true := rfl
        rw [hx, htr2] at hf
        exact absurd hf (by simp)

theorem cleanProperties_strips_and_folds_witness :
    ∃ out, cleanValue (.jobj
        [("type", .jstr "string"),
         ("description", .jstr "Mes a consultar"),
         ("examples", .jarr [.jstr "July"]),
         ("enum", .jarr [.jstr "July", .jstr "August"]),
         ("enumDescriptions", .jobj
           [("July", .jstr "mes de julio"), ("August", .jstr "mes de agosto")])])
        = .jobj out ∧
      lookupField out "examples" = none ∧
      lookupField out "description" = some (.jstr
        ("Mes a consultar\n\nOpciones disponibles:\n" ++
          enumDescLines [("July", .jstr "mes de julio"),
            ("August", .jstr "mes de agosto")])) := by
  obtain ⟨-, h⟩ := cleanProperties_strips_and_folds []
  obtain ⟨out, hout, hkeys, hex, hedn, hfold⟩ := h
    [("type", .jstr "string"),
     ("description", .jstr "Mes a consultar"),
     ("examples", .jarr [.jstr "July"]),
     ("enum", .jarr [.jstr "July", .jstr "August"]),
     ("enumDescriptions", .jobj
       [("July", .jstr "mes de julio"), ("August", .jstr "mes de agosto")])]
  refine ⟨out, hout, hex, ?_⟩
  have := hfold [("July", .jstr "mes de julio"), ("August", .jstr "mes de agosto")]
    (.jarr [.jstr "July", .jstr "August"]) (by rfl) (by rfl) (by rfl)
  simpa [lookupField, jsTruthy, jsTemplate] using this

/-! ### Claims C7 and C1: the orchestration turn
(`ConversationOrchestrator.handleChatPrompt`,
src/core/conversation/ConversationOrchestrator.ts) -/

/-- The value of `executeToolInterpreter`: a textual data block plus the raw
tool results. -/
structure ToolInterpreterData where
  data : String
  results : List Json
deriving Repr

/-- The extraction of the settled tool-interpreter outcome (lines 126-129):
a rejected promise degrades to the neutral `{data: "Sin datos", results: []}`. -/
def extractToolData : Except String ToolInterpreterData → ToolInterpreterData
  | .ok v => v
  | .error _ => { data := "Sin datos", results := [] }

/-- The extraction of the settled intention-interpreter outcome
(lines 130-133): a rejected promise degrades to `"Respuesta estándar"`. -/
def extractIntention : Except String String → String
  | .ok v => v
  | .error _ => "Respuesta estándar"

/-- The final synthesis prompt of `handleChatPrompt` (lines 136-156),
assembled from the formatted history, the tool listing, the tool-interpreter
data, the intention analysis and the current time. -/
def buildFinalPrompt (historyBlock toolsBlock : String)
    (toolData : ToolInterpreterData) (intentionText : String)
    (nowIso : String) : String :=
  "\n      ## HISTORIAL CONVERSACIONAL COMPLETO\n      " ++ historyBlock ++
  "\n\n      ## HERRAMIENTAS DISPONIBLES EN EL SISTEMA\n      " ++ toolsBlock ++
  "\n\n      ## DATOS OBTENIDOS DE HERRAMIENTAS EJECUTADAS\n      " ++ toolData.data ++
  "\n\n      ## ANÁLISIS DE INTENCIÓN DEL USUARIO\n      " ++ intentionText ++
  "\n\n      ## Fecha y hora actual\n      " ++ nowIso ++
  "\n\n      BASADO EN LA INTENCION DEL USUARIO Y LOS DATOS OBTENIDOS, RESPONDE DE MANERA CONCISA Y DIRECTA." ++
  "\n      RESPUESTA, HACIENDO UN BREVE ANALISIS DE LA DATA DE LAS HERRAMIENTAS" ++
  "\n\n      OJO: SI NO HAY INTENCION DEBES DECIRLE AL USUARIO QUE TE BRINDE UN POCO MAS DE CLARIDAD, PUDES BASARTE EN EL HISTORIAL PARA CONTRAPREGUNTAR\n      "

/-- The synthesis inference call as issued (lines 163-175): the final call
carries no tool declarations. -/
structure SynthesisRequest where
  prompt : String
  toolsEnabled : Bool
deriving Repr, DecidableEq

/-- The step from the settled pair of analysis outcomes (the
`Promise.allSettled` join of lines 100-120, which waits for both outcomes
whatever they are) to the synthesis call: both settled values are consumed,
each failed path replaced by its neutral default, and the synthesis request
is always built. -/
def stepAnalyzed (historyBlock toolsBlock nowIso : String)
    (toolOutcome : Except String ToolInterpreterData)
    (intentionOutcome : Except String String) : SynthesisRequest :=
  { prompt := buildFinalPrompt historyBlock toolsBlock
      (extractToolData toolOutcome) (extractIntention intentionOutcome) nowIso,
    toolsEnabled := false }

/-- C7: both analysis outcomes are consumed whatever they are, and when the
tool-use decision call fails while the intent call succeeds, the turn still
reaches the synthesis call, built from the neutral tool result
(`data = "Sin datos"`, no results) and the real intent text. -/
theorem analysis_partial_failure_tolerant (historyBlock toolsBlock nowIso : String)
    (e : String) (s : String)
    (toolOutcome : Except String ToolInterpreterData)
    (intentionOutcome : Except String String) :
    (stepAnalyzed historyBlock toolsBlock nowIso (.error e) (.ok s) =
      stepAnalyzed historyBlock toolsBlock nowIso
        (.ok { data := "Sin datos", results := [] }) (.ok s)) ∧
    (stepAnalyzed historyBlock toolsBlock nowIso (.error e) (.ok s)).prompt =
      buildFinalPrompt historyBlock toolsBlock
        { data := "Sin datos", results := [] } s nowIso ∧
    extractToolData (.error e) = { data := "Sin datos", results := [] } ∧
    extractIntention (.error e) = "Respuesta estándar" ∧
    (stepAnalyzed historyBlock toolsBlock nowIso toolOutcome intentionOutcome).prompt =
      buildFinalPrompt historyBlock toolsBlock (extractToolData toolOutcome)
        (extractIntention intentionOutcome) nowIso :=
  ⟨rfl, rfl, rfl, rfl, rfl⟩

/-- The synthesis inference response (`GenerationResponse`). -/
structure GenResponse where
  text : String
  functionCalls : List Json
deriving Repr

/-- The synthesis phase of `handleChatPrompt` (lines 163-180): one inference
call is made; its settled outcome is consumed directly — a thrown failure
propagates out of `handleChatPrompt` (there is no surrounding `try`), and an
empty text is replaced by the fixed string
"No se pudo generar respuesta final.". The `Nat` counts the synthesis
inference calls issued during the phase. -/
def synthesisPhase (outcome : Except String GenResponse) : Except String String × Nat :=
  match outcome with
  | .error e => (.error e, 1)
  | .ok finalResponse =>
    (.ok (if finalResponse.text.isEmpty then "No se pudo generar respuesta final."
      else finalResponse.text), 1)

/-- C1 (counterexample): when the synthesis inference call fails, the
orchestrator does not retry and does not substitute an apology — the failure
propagates to the caller of `handleChatPrompt` after exactly one synthesis
call, refuting the claimed retry-once-then-apologize policy. -/
theorem synthesis_retry_counterexample :
    synthesisPhase (.error "InferenceError") = (.error "InferenceError", 1) ∧
      (synthesisPhase (.error "InferenceError")).1 ≠
        .ok "Lo siento, no pude generar una respuesta en este momento." := by
  refine ⟨rfl, ?_⟩
  intro h
  exact Except.noConfusion h

/-- C1 (amended): the synthesis phase issues exactly one inference call and
never a second one; a thrown failure propagates unchanged to the caller of
`handleChatPrompt`, while a successful call with empty text yields the fixed
message "No se pudo generar respuesta final." and a successful call with
text yields that text. -/
theorem synthesis_single_call (outcome : Except String GenResponse) :
    (synthesisPhase outcome).2 = 1 ∧
    (∀ e, outcome = .error e → synthesisPhase outcome = (.error e, 1)) ∧
    (∀ r, outcome = .ok r → r.text.isEmpty = true →
      synthesisPhase outcome = (.ok "No se pudo generar respuesta final.", 1)) ∧
    (∀ r, outcome = .ok r → r.text.isEmpty = false →
      synthesisPhase outcome = (.ok r.text, 1)) := by
  refine ⟨?_, ?_, ?_, ?_⟩
  · cases outcome <;> rfl
  · rintro e rfl; rfl
  · rintro r rfl ht
    simp [synthesisPhase, ht]
  · rintro r rfl ht
    simp [synthesisPhase, ht]

theorem synthesis_single_call_witness :
    synthesisPhase (.ok { text := "", functionCalls := [] }) =
      (.ok "No se pudo generar respuesta final.", 1) :=
  (synthesis_single_call (.ok { text := "", functionCalls := [] })).2.2.1
    { text := "", functionCalls := [] } rfl rfl

end Spec2Proof
